import Mathlib

/-!
Shallow embedding of `act-biso_labels.py`, a batch text transformer that
loads a CSV mapping of project names to team e-mail addresses and inserts a
`biso_team` label line into the `labels` block of matching `terragrunt.hcl`
files.  Strings are modelled as `List Char`; a file is a list of lines, each
line carrying its terminator character when it has one.
-/

abbrev Str := List Char

/-- Whitespace in the sense of Python's `str.strip` / regex `\s` (ASCII part). -/
def isPySpace (c : Char) : Bool :=
  c = ' ' || c = '\t' || c = '\n' || c = '\r' || c = '\x0b' || c = '\x0c'

/-- Python `str.strip()`: drop leading and trailing whitespace. -/
def stripChars (s : Str) : Str :=
  ((s.dropWhile isPySpace).reverse.dropWhile isPySpace).reverse

/-- Python's substring test `pat in l`. -/
def hasSubstr (pat : Str) : Str → Bool
  | [] => pat.isEmpty
  | c :: t => pat.isPrefixOf (c :: t) || hasSubstr pat t

/-- The literal domain suffix replaced by `format_email_for_label`. -/
def tecoPat : Str := "@teco.com.ar".toList

/-- The sanitized replacement used by `format_email_for_label`. -/
def tecoRep : Str := "-teco_com_ar".toList

/-- Left-to-right non-overlapping replacement of `tecoPat` by `tecoRep`,
with a fuel argument for structural recursion.  Each step consumes one unit
of fuel and at least one character, so fuel equal to the length of the input
never runs out. -/
def fmtFuel : Nat → Str → Str
  | 0, l => l
  | _ + 1, [] => []
  | n + 1, c :: t =>
    if tecoPat.isPrefixOf (c :: t) then tecoRep ++ fmtFuel n (t.drop 11)
    else c :: fmtFuel n t

/-- Python `email.replace("@teco.com.ar", "-teco_com_ar")`: replace every
occurrence, scanning left to right without overlap. -/
def format_email_for_label (email : Str) : Str :=
  fmtFuel email.length email

theorem hasSubstr_cons (pat : Str) (c : Char) (t : Str) :
    hasSubstr pat (c :: t) = (pat.isPrefixOf (c :: t) || hasSubstr pat t) := rfl

theorem fmtFuel_of_not_hasSubstr (n : Nat) (l : Str) (h : hasSubstr tecoPat l = false) :
    fmtFuel n l = l := by
  induction n generalizing l with
  | zero => rfl
  | succ n ih =>
    cases l with
    | nil => rfl
    | cons c t =>
      rw [hasSubstr_cons, Bool.or_eq_false_iff] at h
      rw [fmtFuel]
      simp [h.1, ih t h.2]

theorem format_email_of_not_hasSubstr (l : Str) (h : hasSubstr tecoPat l = false) :
    format_email_for_label l = l :=
  fmtFuel_of_not_hasSubstr l.length l h

/-- Claim C8: the contact-identifier formatter is a pure string function: it maps
"a@teco.com.ar" to "a-teco_com_ar"; any identifier not containing the literal
"@teco.com.ar" (for instance "a@other.com") is returned unchanged; where the
literal is present it is replaced by the literal "-teco_com_ar". -/
theorem c8_formatter_behaviour :
    format_email_for_label ("a@teco.com.ar".toList) = "a-teco_com_ar".toList ∧
    format_email_for_label ("a@other.com".toList) = "a@other.com".toList ∧
    ∀ l : Str, hasSubstr tecoPat l = false → format_email_for_label l = l :=
  ⟨by decide, by decide, format_email_of_not_hasSubstr⟩

theorem c8_formatter_behaviour_witness :
    format_email_for_label ("team@example.org".toList) = "team@example.org".toList :=
  c8_formatter_behaviour.2.2 ("team@example.org".toList) (by decide)

/-! Block Editor (`update_terragrunt_file`). -/

/-- The block-opener substring searched for on each line. -/
def openerPat : Str := "labels = \x7b".toList

/-- A line whose stripped content is exactly a closing brace ends the block. -/
def closerStr : Str := ['\x7d']

/-- Characters of the character class of the last-label regex. -/
def isIdentChar (c : Char) : Bool :=
  c.isAlphanum || c = '_' || c = '-'

/-- Leading whitespace run of a line, as matched by the regex fragment `\s+`
anchored at the start. -/
def leadingWs (l : Str) : Str := l.takeWhile isPySpace

/-- Python `re.match` of the last-label regex: optional leading whitespace, a
nonempty identifier, optional whitespace, an equals sign, optional whitespace,
then a double-quoted string on the same line. -/
def lastLabelMatch (l : Str) : Bool :=
  let r1 := l.dropWhile isPySpace
  if (r1.takeWhile isIdentChar).isEmpty then false
  else
    match (r1.dropWhile isIdentChar).dropWhile isPySpace with
    | '=' :: r2 =>
      match r2.dropWhile isPySpace with
      | '"' :: r3 => (r3.takeWhile (fun c => c ≠ '\n')).contains '"'
      | _ => false
    | _ => false

/-- The default four-space indentation. -/
def defaultIndent : Str := "    ".toList

/-- Indentation contributed by a line matching the last-label regex: its
leading whitespace when nonempty, else the default stays in effect. -/
def indentOf (l : Str) : Str :=
  if (leadingWs l).isEmpty then defaultIndent else leadingWs l

/-- Backward scan `for j in range(i - 1, 0, -1)` of the source: the argument
is the first index examined; indices count down and index 0 is never
examined.  The first line matching the last-label regex supplies the
indentation; if none matches, the default applies. -/
def scanIndent (lines : List Str) : Nat → Str
  | 0 => defaultIndent
  | j + 1 =>
    if lastLabelMatch (lines.getD (j + 1) []) then indentOf (lines.getD (j + 1) [])
    else scanIndent lines j

/-- The inserted line: indentation, the literal label key with its fixed
internal padding, the formatted e-mail in quotes, and a newline. -/
def biso_team_line (ind email : Str) : Str :=
  ind ++ "biso_team                   = \"".toList
      ++ format_email_for_label email ++ "\"\n".toList

/-- Python `list.insert(-1, x)`: insert `x` immediately before the last
element (or as sole element of an empty list). -/
def insertPenult : List Str → Str → List Str
  | [], x => [x]
  | [a], x => [x, a]
  | a :: b :: t, x => a :: insertPenult (b :: t) x

/-- Loop state of `update_terragrunt_file`: the accumulated output lines and
the two flags. -/
structure EState where
  newLines : List Str
  inBlock : Bool
  found : Bool
deriving DecidableEq

/-- One iteration of the scanning loop: append the line, then either arm the
flags on a block opener, insert the new label before a block closer seen
while inside the block, or pass through. -/
def editStep (lines : List Str) (email : Str) (s : EState) (p : Nat × Str) : EState :=
  let s1 : EState := { s with newLines := s.newLines ++ [p.2] }
  if hasSubstr openerPat p.2 then
    { s1 with inBlock := true, found := true }
  else if s1.inBlock && stripChars p.2 == closerStr then
    { s1 with
        newLines := insertPenult s1.newLines
          (biso_team_line (scanIndent lines (p.1 - 1)) email),
        inBlock := false }
  else s1

/-- The whole scanning loop over the enumerated lines. -/
def runEdit (lines : List Str) (email : Str) : EState :=
  lines.enum.foldl (editStep lines email) ⟨[], false, false⟩

/-- The Block Editor on the list of lines of a file: `none` when the labels
block was never found (warning printed, no write performed, file untouched),
otherwise the new list of lines written back to the file. -/
def update_terragrunt_file (lines : List Str) (email : Str) : Option (List Str) :=
  let s := runEdit lines email
  if s.found then some s.newLines else none

/-- Lines of a file, written as Lean string literals for readability. -/
def linesOf (xs : List String) : List Str := xs.map String.toList

/-! Counting machinery for the scanning loop. -/

/-- The label key, as a substring to count occurrences of. -/
def bisoPat : Str := "biso_team".toList

/-- Number of lines of a file containing the label key as a substring. -/
def countBiso (lines : List Str) : Nat :=
  lines.countP (fun l => hasSubstr bisoPat l)

/-- Number of insertions the scanning loop performs, following the flag
dynamics of the source: an opener line arms the flag, a bare closing brace
seen while armed triggers one insertion and clears the flag. -/
def nInserts : Bool → List Str → Nat
  | _, [] => 0
  | inB, l :: t =>
    if hasSubstr openerPat l then nInserts true t
    else if inB && stripChars l == closerStr then 1 + nInserts false t
    else nInserts inB t

/-- Value of the in-block flag after scanning a list of lines. -/
def flagAfter : Bool → List Str → Bool
  | inB, [] => inB
  | inB, l :: t =>
    if hasSubstr openerPat l then flagAfter true t
    else if inB && stripChars l == closerStr then flagAfter false t
    else flagAfter inB t

theorem insertPenult_length (ls : List Str) (x : Str) :
    (insertPenult ls x).length = ls.length + 1 := by
  induction ls with
  | nil => rfl
  | cons a t ih =>
    cases t with
    | nil => rfl
    | cons b t2 => simp only [insertPenult, List.length_cons] at ih ⊢; omega

theorem insertPenult_countP (p : Str → Bool) (ls : List Str) (x : Str) :
    (insertPenult ls x).countP p = ls.countP p + (if p x then 1 else 0) := by
  induction ls with
  | nil => simp [insertPenult, List.countP_cons]
  | cons a t ih =>
    cases t with
    | nil => simp [insertPenult, List.countP_cons]
    | cons b t2 =>
      simp only [insertPenult, List.countP_cons] at ih ⊢
      omega

theorem hasSubstr_of_isPrefixOf (pat l : Str) (h : pat.isPrefixOf l = true) :
    hasSubstr pat l = true := by
  cases l with
  | nil =>
    cases pat with
    | nil => rfl
    | cons c t => simp [List.isPrefixOf] at h
  | cons c t => rw [hasSubstr_cons, h, Bool.true_or]

theorem hasSubstr_append_right (pat a t : Str) (h : hasSubstr pat t = true) :
    hasSubstr pat (a ++ t) = true := by
  induction a with
  | nil => exact h
  | cons c a2 ih => rw [List.cons_append, hasSubstr_cons, ih, Bool.or_true]

theorem hasSubstr_biso_line (ind email : Str) :
    hasSubstr bisoPat (biso_team_line ind email) = true := by
  unfold biso_team_line
  rw [List.append_assoc, List.append_assoc]
  apply hasSubstr_append_right
  apply hasSubstr_of_isPrefixOf
  rw [List.isPrefixOf_iff_prefix]
  exact (show bisoPat <+: "biso_team                   = \"".toList by decide).trans
    (List.prefix_append _ _)

theorem foldl_editStep_master (lines : List Str) (email : Str)
    (ps : List (Nat × Str)) (s : EState) :
    ((ps.foldl (editStep lines email) s).newLines.length
        = s.newLines.length + ps.length + nInserts s.inBlock (ps.map Prod.snd))
    ∧ (countBiso (ps.foldl (editStep lines email) s).newLines
        = countBiso s.newLines + countBiso (ps.map Prod.snd)
            + nInserts s.inBlock (ps.map Prod.snd))
    ∧ ((ps.foldl (editStep lines email) s).found
        = (s.found || (ps.map Prod.snd).any (hasSubstr openerPat)))
    ∧ ((ps.foldl (editStep lines email) s).inBlock
        = flagAfter s.inBlock (ps.map Prod.snd)) := by
  induction ps generalizing s with
  | nil => simp [nInserts, countBiso, flagAfter]
  | cons p t ih =>
    rw [List.foldl_cons]
    by_cases h1 : hasSubstr openerPat p.2 = true
    · have hstep : editStep lines email s p
          = ⟨s.newLines ++ [p.2], true, true⟩ := by
        simp [editStep, h1]
      rw [hstep]
      obtain ⟨ih1, ih2, ih3, ih4⟩ := ih ⟨s.newLines ++ [p.2], true, true⟩
      refine ⟨?_, ?_, ?_, ?_⟩
      · rw [ih1]
        simp only [List.map_cons, nInserts, h1, if_true, List.length_append,
          List.length_cons, List.length_nil]
        omega
      · rw [ih2]
        simp only [List.map_cons, nInserts, h1, if_true, countBiso,
          List.countP_append, List.countP_cons, List.countP_nil]
        omega
      · rw [ih3]
        simp [h1]
      · rw [ih4]
        simp [flagAfter, h1]
    · by_cases h2 : (s.inBlock && stripChars p.2 == closerStr) = true
      · have hstep : editStep lines email s p
            = ⟨insertPenult (s.newLines ++ [p.2])
                 (biso_team_line (scanIndent lines (p.1 - 1)) email),
               false, s.found⟩ := by
          simp only [editStep, h1]
          simp [h2]
        rw [hstep]
        obtain ⟨ih1, ih2, ih3, ih4⟩ := ih
          ⟨insertPenult (s.newLines ++ [p.2])
             (biso_team_line (scanIndent lines (p.1 - 1)) email),
           false, s.found⟩
        refine ⟨?_, ?_, ?_, ?_⟩
        · rw [ih1, insertPenult_length]
          simp only [List.map_cons, nInserts, h1, if_false, h2, if_true,
            List.length_append, List.length_cons, List.length_nil]
          simp only [Bool.not_eq_true] at h1
          simp [h1, h2]
          omega
        · rw [ih2]
          simp only [countBiso, insertPenult_countP, List.countP_append,
            List.countP_cons, List.countP_nil, hasSubstr_biso_line, if_true,
            List.map_cons, nInserts, h1, h2]
          simp only [Bool.not_eq_true] at h1
          simp [h1, h2]
          omega
        · rw [ih3]
          simp [h1]
        · rw [ih4]
          simp only [Bool.not_eq_true] at h1
          simp [flagAfter, h1, h2]
      · have hstep : editStep lines email s p
            = ⟨s.newLines ++ [p.2], s.inBlock, s.found⟩ := by
          simp only [editStep, h1]
          simp [h2]
        rw [hstep]
        obtain ⟨ih1, ih2, ih3, ih4⟩ := ih ⟨s.newLines ++ [p.2], s.inBlock, s.found⟩
        refine ⟨?_, ?_, ?_, ?_⟩
        · rw [ih1]
          simp only [Bool.not_eq_true] at h1 h2
          simp [List.map_cons, nInserts, h1, h2]
          omega
        · rw [ih2]
          simp only [Bool.not_eq_true] at h1 h2
          simp [List.map_cons, nInserts, h1, h2, countBiso,
            List.countP_append, List.countP_cons]
          omega
        · rw [ih3]
          simp [h1]
        · rw [ih4]
          simp only [Bool.not_eq_true] at h1 h2
          simp [flagAfter, h1, h2]

theorem runEdit_spec (lines : List Str) (email : Str) :
    (runEdit lines email).newLines.length = lines.length + nInserts false lines
    ∧ countBiso (runEdit lines email).newLines = countBiso lines + nInserts false lines
    ∧ (runEdit lines email).found = lines.any (hasSubstr openerPat) := by
  obtain ⟨h1, h2, h3, _⟩ := foldl_editStep_master lines email lines.enum ⟨[], false, false⟩
  rw [List.enum_map_snd] at h1 h2 h3
  rw [List.enum_length] at h1
  exact ⟨by simpa [runEdit, countBiso] using h1,
    by simpa [runEdit, countBiso] using h2,
    by simpa [runEdit] using h3⟩

/-- Claim C6: for every input file in which no line contains the block-opener
substring, the Block Editor reports not-found and performs no write, leaving
the file untouched. -/
theorem c6_no_opener_no_write (lines : List Str) (email : Str)
    (h : ∀ l ∈ lines, hasSubstr openerPat l = false) :
    update_terragrunt_file lines email = none := by
  have hf := (runEdit_spec lines email).2.2
  have hany : lines.any (hasSubstr openerPat) = false := by
    rw [List.any_eq_false]
    intro x hx
    simp [h x hx]
  rw [hany] at hf
  simp [update_terragrunt_file, hf]

theorem c6_no_opener_no_write_witness :
    update_terragrunt_file
      (linesOf ["name = \"p1\"\n", "foo = \x7b\n", "\x7d\n"]) "u@teco.com.ar".toList
      = none :=
  c6_no_opener_no_write _ _ (by decide)

theorem update_counts (lines : List Str) (email : Str) (out : List Str)
    (h : update_terragrunt_file lines email = some out) :
    out.length = lines.length + nInserts false lines
    ∧ countBiso out = countBiso lines + nInserts false lines := by
  unfold update_terragrunt_file at h
  by_cases hf : (runEdit lines email).found = true
  · simp only [hf, if_true] at h
    obtain rfl : (runEdit lines email).newLines = out := by simpa using h
    exact ⟨(runEdit_spec lines email).1, (runEdit_spec lines email).2.1⟩
  · rw [if_neg hf] at h
    simp at h

/-- Claim C5: the Block Editor is not idempotent: on a file containing exactly one
line with the label key and exactly one insertion point (a single labels
block), a rerun with the same inputs inserts a second line instead of
updating the first, so the result has two such lines. -/
theorem c5_rerun_duplicates_label (lines : List Str) (email : Str) (out : List Str)
    (h : update_terragrunt_file lines email = some out)
    (hone : countBiso lines = 1) (hins : nInserts false lines = 1) :
    countBiso out = 2 := by
  have hc := (update_counts lines email out h).2
  omega

/-- A file already carrying the inserted label, as produced by a first run. -/
def c5file : List Str :=
  linesOf ["labels = \x7b\n", "  env = \"prod\"\n",
           "  biso_team                   = \"u-teco_com_ar\"\n", "\x7d\n"]

/-- Result of rerunning the editor on the already-labelled file. -/
def c5out : List Str :=
  linesOf ["labels = \x7b\n", "  env = \"prod\"\n",
           "  biso_team                   = \"u-teco_com_ar\"\n",
           "  biso_team                   = \"u-teco_com_ar\"\n", "\x7d\n"]

theorem c5_rerun_duplicates_label_witness : countBiso c5out = 2 :=
  c5_rerun_duplicates_label c5file ("u@teco.com.ar".toList) c5out
    (by decide) (by decide) (by decide)

/-! Claim C2: whether only the first labels block is edited. -/

/-- A canonical block-opening line. -/
def openerLine : Str := "labels = \x7b\n".toList

/-- A canonical block-closing line. -/
def closerLine : Str := "\x7d\n".toList

/-- A file with two labels blocks. -/
def c2file : List Str :=
  linesOf ["labels = \x7b\n", "  a = \"1\"\n", "\x7d\n",
           "labels = \x7b\n", "      b = \"2\"\n", "\x7d\n"]

/-- The editor's actual output on the two-block file: both blocks receive an
inserted line. -/
def c2out : List Str :=
  linesOf ["labels = \x7b\n", "  a = \"1\"\n",
           "  biso_team                   = \"u@x\"\n", "\x7d\n",
           "labels = \x7b\n", "      b = \"2\"\n",
           "      biso_team                   = \"u@x\"\n", "\x7d\n"]

/-- Claim C2 counterexample: on a file with two labels blocks the editor inserts two
lines, one per block, so the later block is edited too; were only the first
block touched, the output would be exactly one line longer than the input,
but it is two lines longer. -/
theorem c2_counterexample :
    update_terragrunt_file c2file ("u@x".toList) = some c2out
    ∧ c2out.length = c2file.length + 2 :=
  ⟨by decide, by decide⟩

/-- Claim C2 amended: the inside-block flag is re-armed by every later opener line,
so with two labels blocks each bare closing brace receives an inserted line,
indented from the label line of its own block. -/
theorem c2_amended_both_blocks_edited (a b email : Str)
    (ha1 : hasSubstr openerPat a = false) (ha2 : (stripChars a == closerStr) = false)
    (ha3 : lastLabelMatch a = true)
    (hb1 : hasSubstr openerPat b = false) (hb2 : (stripChars b == closerStr) = false)
    (hb3 : lastLabelMatch b = true) :
    update_terragrunt_file [openerLine, a, closerLine, openerLine, b, closerLine] email
      = some [openerLine, a, biso_team_line (indentOf a) email, closerLine,
              openerLine, b, biso_team_line (indentOf b) email, closerLine] := by
  have ho : hasSubstr openerPat openerLine = true := by decide
  have hc1 : hasSubstr openerPat closerLine = false := by decide
  have hc2 : (stripChars closerLine == closerStr) = true := by decide
  simp [update_terragrunt_file, runEdit, List.enum, List.enumFrom, editStep,
    ho, hc1, hc2, ha1, ha2, ha3, hb1, hb2, hb3, scanIndent, insertPenult]

theorem c2_amended_both_blocks_edited_witness :
    update_terragrunt_file
        [openerLine, "  a = \"1\"\n".toList, closerLine,
         openerLine, "      b = \"2\"\n".toList, closerLine] ("u@x".toList)
      = some [openerLine, "  a = \"1\"\n".toList,
              biso_team_line (indentOf ("  a = \"1\"\n".toList)) "u@x".toList, closerLine,
              openerLine, "      b = \"2\"\n".toList,
              biso_team_line (indentOf ("      b = \"2\"\n".toList)) "u@x".toList,
              closerLine] :=
  c2_amended_both_blocks_edited _ _ _ (by decide) (by decide) (by decide)
    (by decide) (by decide) (by decide)

/-! Claim C3: where the indentation of the inserted line comes from. -/

/-- A file whose line immediately before the closer is blank, with a matching
label line higher up indented by two spaces. -/
def c3file : List Str :=
  linesOf ["labels = \x7b\n", "  env = \"prod\"\n", "\n", "\x7d\n"]

/-- Actual output: the two-space indentation of the earlier label line is
copied, although that line does not immediately precede the closer. -/
def c3out : List Str :=
  linesOf ["labels = \x7b\n", "  env = \"prod\"\n", "\n",
           "  biso_team                   = \"u@x\"\n", "\x7d\n"]

/-- Output the claim would require: the line immediately preceding the closer
is blank and does not match the label pattern, so the inserted line would get
the default four-space indentation. -/
def c3claimOut : List Str :=
  linesOf ["labels = \x7b\n", "  env = \"prod\"\n", "\n",
           "    biso_team                   = \"u@x\"\n", "\x7d\n"]

/-- Claim C3 counterexample: with a blank line just before the closer the editor
does consult further lines: it copies the two-space indentation of the label
line above the blank line instead of defaulting to four spaces. -/
theorem c3_counterexample :
    update_terragrunt_file c3file ("u@x".toList) = some c3out ∧ c3out ≠ c3claimOut :=
  ⟨by decide, by decide⟩

/-- Claim C3 amended: the indentation is found by scanning backward from the line
before the closer over all earlier lines except the first line of the file,
stopping at the first line matching the label pattern, whose leading
whitespace is copied; only when no scanned line matches does the four-space
default apply. -/
theorem c3_amended_backward_scan (lbl blank email : Str)
    (hl1 : hasSubstr openerPat lbl = false) (hl2 : (stripChars lbl == closerStr) = false)
    (hl3 : lastLabelMatch lbl = true) (hl4 : (leadingWs lbl).isEmpty = false)
    (hb1 : hasSubstr openerPat blank = false) (hb2 : (stripChars blank == closerStr) = false)
    (hb3 : lastLabelMatch blank = false) :
    update_terragrunt_file [openerLine, lbl, blank, closerLine] email
      = some [openerLine, lbl, blank, biso_team_line (leadingWs lbl) email, closerLine]
    ∧ update_terragrunt_file [openerLine, blank, closerLine] email
      = some [openerLine, blank, biso_team_line defaultIndent email, closerLine] := by
  have ho : hasSubstr openerPat openerLine = true := by decide
  have hc1 : hasSubstr openerPat closerLine = false := by decide
  have hc2 : (stripChars closerLine == closerStr) = true := by decide
  constructor
  · simp [update_terragrunt_file, runEdit, List.enum, List.enumFrom, editStep,
      ho, hc1, hc2, hl1, hl2, hl3, hb1, hb2, hb3, scanIndent, insertPenult,
      indentOf, hl4]
  · simp [update_terragrunt_file, runEdit, List.enum, List.enumFrom, editStep,
      ho, hc1, hc2, hb1, hb2, hb3, scanIndent, insertPenult]

theorem c3_amended_backward_scan_witness :
    (update_terragrunt_file
        [openerLine, "  env = \"prod\"\n".toList, "\n".toList, closerLine] ("u@x".toList)
      = some [openerLine, "  env = \"prod\"\n".toList, "\n".toList,
              biso_team_line (leadingWs ("  env = \"prod\"\n".toList)) "u@x".toList,
              closerLine])
    ∧ (update_terragrunt_file [openerLine, "\n".toList, closerLine] ("u@x".toList)
      = some [openerLine, "\n".toList, biso_team_line defaultIndent ("u@x".toList),
              closerLine]) :=
  c3_amended_backward_scan _ _ _ (by decide) (by decide) (by decide) (by decide)
    (by decide) (by decide) (by decide)

/-! Claim C9: line terminators through text-mode reading and writing. -/

/-- Universal-newlines translation performed by Python text-mode reading: a
carriage-return/line-feed pair and a lone carriage return both become a
single line feed. -/
def univNewlines : Str → Str
  | [] => []
  | '\r' :: '\n' :: t => '\n' :: univNewlines t
  | '\r' :: t => '\n' :: univNewlines t
  | c :: t => c :: univNewlines t

/-- Python `readlines` on translated text: split after each line feed,
keeping the terminator; a trailing fragment without terminator is kept. -/
def splitKeepNl (cur : Str) : Str → List Str
  | [] => if cur.isEmpty then [] else [cur.reverse]
  | '\n' :: t => (cur.reverse ++ ['\n']) :: splitKeepNl [] t
  | c :: t => splitKeepNl (c :: cur) t

/-- The ordered lines the editor reads from the raw bytes of a file. -/
def readlinesOf (raw : Str) : List Str := splitKeepNl [] (univNewlines raw)

/-- Content of the file after one editor invocation, modelled on a POSIX
system: text-mode reading applies universal newlines, text-mode writing
translates each line feed to the platform separator, itself a line feed
there.  When the block is not found the file is not rewritten and keeps its
original bytes. -/
def fileAfterEdit (raw email : Str) : Str :=
  match update_terragrunt_file (readlinesOf raw) email with
  | none => raw
  | some nl => nl.flatten

/-- A file using CRLF line endings throughout. -/
def c9raw : Str := "labels = \x7b\r\n  a = \"1\"\r\n\x7d\r\n".toList

/-- What the program actually writes back: every terminator is a bare line
feed, the inserted line included. -/
def c9actual : Str :=
  "labels = \x7b\n  a = \"1\"\n  biso_team                   = \"u\"\n\x7d\n".toList

/-- What the claim requires: CRLF kept on all original lines and used for the
inserted line. -/
def c9claim : Str :=
  "labels = \x7b\r\n  a = \"1\"\r\n  biso_team                   = \"u\"\r\n\x7d\r\n".toList

/-- Claim C9 counterexample: a CRLF file is rewritten with line-feed terminators on
every line, not with its original CRLF convention. -/
theorem c9_counterexample :
    fileAfterEdit c9raw ("u".toList) = c9actual ∧ c9actual ≠ c9claim :=
  ⟨by decide, by decide⟩

/-- Claim C9 amended: terminators are normalized rather than preserved: reading
applies universal newlines and writing uses the platform separator (line
feed in this POSIX model), so a rewritten CRLF file comes back with line
feeds everywhere, the inserted line included; only a file whose labels block
is not found keeps its original bytes. -/
theorem c9_amended_normalizes_terminators (raw email : Str)
    (h : update_terragrunt_file (readlinesOf raw) email = none) :
    fileAfterEdit raw email = raw
    ∧ fileAfterEdit c9raw ("u".toList) = c9actual
    ∧ c9raw.count '\r' = 3 ∧ c9actual.count '\r' = 0 :=
  ⟨by simp [fileAfterEdit, h], by decide, by decide, by decide⟩

theorem c9_amended_normalizes_terminators_witness :
    fileAfterEdit ("name = \"p\"\r\n".toList) ("u".toList) = "name = \"p\"\r\n".toList
    ∧ fileAfterEdit c9raw ("u".toList) = c9actual
    ∧ c9raw.count '\r' = 3 ∧ c9actual.count '\r' = 0 :=
  c9_amended_normalizes_terminators ("name = \"p\"\r\n".toList) ("u".toList) (by decide)

/-! Lookup Loader (`load_project_data`). -/

/-- Name of the required project-name column. -/
def PROJECT_NAME_COL : Str := "PROJECT_NAME".toList

/-- Name of the required contact column. -/
def EMAIL_COL : Str := "BISO_TEAM".toList

/-- Python dict assignment `d[k] = v`: replace the value of an existing key
in place, else append the pair at the end. -/
def dictInsert : List (Str × Str) → Str → Str → List (Str × Str)
  | [], k, v => [(k, v)]
  | (k', v') :: t, k, v =>
    if k' = k then (k, v) :: t else (k', v') :: dictInsert t k v

/-- Python dict lookup; keys of the model are unique, the first match wins. -/
def dictLookup : List (Str × Str) → Str → Option Str
  | [], _ => none
  | (k', v) :: t, k => if k' = k then some v else dictLookup t k

/-- Cell access `row[col]` of a `csv.DictReader` row: the value at the last
occurrence of the column name in the header (later duplicate header names
overwrite earlier ones in the row dictionary). -/
def rowGet (header row : List Str) (col : Str) : Str :=
  match header, row with
  | [], _ => []
  | _ :: _, [] => []
  | h :: ht, v :: vt => if h = col ∧ col ∉ ht then v else rowGet ht vt col

/-- One row of the loading loop: strip both required cells and keep the pair
when both are nonempty, later rows overwriting earlier ones. -/
def loadRow (header : List Str) (pd : List (Str × Str)) (row : List Str) :
    List (Str × Str) :=
  let project_name := stripChars (rowGet header row PROJECT_NAME_COL)
  let email := stripChars (rowGet header row EMAIL_COL)
  if project_name ≠ [] ∧ email ≠ [] then dictInsert pd project_name email else pd

/-- The Lookup Loader on a parsed delimited file, given as header fields and
data rows: fails (returns `none`, the schema error) when a required column is
missing from the header, else folds the rows into a dictionary. -/
def load_project_data (header : List Str) (rows : List (List Str)) :
    Option (List (Str × Str)) :=
  if PROJECT_NAME_COL ∈ header ∧ EMAIL_COL ∈ header then
    some (rows.foldl (loadRow header) [])
  else none

/-- The trimmed pairs of rows whose two required cells are both nonempty. -/
def usableRows (header : List Str) (rows : List (List Str)) : List (Str × Str) :=
  rows.filterMap (fun row =>
    let n := stripChars (rowGet header row PROJECT_NAME_COL)
    let e := stripChars (rowGet header row EMAIL_COL)
    if n ≠ [] ∧ e ≠ [] then some (n, e) else none)

/-- First of two lookups that succeeds. -/
def orLookup : Option Str → Option Str → Option Str
  | some v, _ => some v
  | none, o => o

/-- Lookup where the last pair carrying the key wins. -/
def lastLookup (ps : List (Str × Str)) (k : Str) : Option Str :=
  dictLookup ps.reverse k

/-! Directory Walker (`main`). -/

/-- Attempt to match the project-name regex at the start of the text: the
literal word, optional whitespace, an equals sign, optional whitespace, then
a nonempty capture of non-quote characters closed by a quote. -/
def matchNameAt (l : Str) : Option Str :=
  match l with
  | 'n' :: 'a' :: 'm' :: 'e' :: rest =>
    match rest.dropWhile isPySpace with
    | '=' :: r2 =>
      match r2.dropWhile isPySpace with
      | '"' :: r3 =>
        let cap := r3.takeWhile (fun c => c ≠ '"')
        if cap.isEmpty then none
        else if (r3.drop cap.length).head? = some '"' then some cap else none
      | _ => none
    | _ => none
  | _ => none

/-- Python `re.search` of the project-name pattern: leftmost match, first
capture group. -/
def searchName : Str → Option Str
  | [] => none
  | c :: t =>
    match matchNameAt (c :: t) with
    | some cap => some cap
    | none => searchName t

/-- One file of the traversal: increment the processed counter, extract the
project name from the whole content, and when it is a key of the mapping run
the Block Editor and increment the modified counter whatever the editor
reports. -/
def walkStep (project_data : List (Str × Str)) (acc : Nat × Nat × List (List Str))
    (f : List Str) : Nat × Nat × List (List Str) :=
  match searchName f.flatten with
  | none => (acc.1 + 1, acc.2.1, acc.2.2 ++ [f])
  | some name =>
    match dictLookup project_data name with
    | none => (acc.1 + 1, acc.2.1, acc.2.2 ++ [f])
    | some email =>
      match update_terragrunt_file f email with
      | none => (acc.1 + 1, acc.2.1 + 1, acc.2.2 ++ [f])
      | some nl => (acc.1 + 1, acc.2.1 + 1, acc.2.2 ++ [nl])

/-- The main traversal over the matched files: number processed, number
counted as modified, and the resulting contents of the files. -/
def main_walk (project_data : List (Str × Str)) (files : List (List Str)) :
    Nat × Nat × List (List Str) :=
  files.foldl (walkStep project_data) (0, 0, [])

/-- Resulting content of one file of the traversal. -/
def walkFile (project_data : List (Str × Str)) (f : List Str) : List Str :=
  match searchName f.flatten with
  | none => f
  | some name =>
    match dictLookup project_data name with
    | none => f
    | some email =>
      match update_terragrunt_file f email with
      | none => f
      | some nl => nl

/-- Whether the walk counts a file as modified: its extracted project name is
a key of the mapping, regardless of what the editor then does. -/
def countedModified (project_data : List (Str × Str)) (f : List Str) : Bool :=
  match searchName f.flatten with
  | none => false
  | some name => (dictLookup project_data name).isSome

/-- The e-mail address the walk passes to the editor for a file, when any. -/
def extractedEmail (project_data : List (Str × Str)) (f : List Str) : Option Str :=
  (searchName f.flatten).bind (dictLookup project_data)

/-- The top-level program on parsed inputs: load, then walk only when the
mapping is truthy, that is, loading succeeded and the dictionary is
nonempty. -/
def run_program (header : List Str) (rows : List (List Str))
    (files : List (List Str)) : Option (Nat × Nat × List (List Str)) :=
  match load_project_data header rows with
  | none => none
  | some pd => if pd.isEmpty then none else some (main_walk pd files)

theorem orLookup_none_right (o : Option Str) : orLookup o none = o := by
  cases o <;> rfl

theorem dictLookup_dictInsert (pd : List (Str × Str)) (k v k' : Str) :
    dictLookup (dictInsert pd k v) k'
      = if k = k' then some v else dictLookup pd k' := by
  induction pd with
  | nil => simp [dictInsert, dictLookup]
  | cons p t ih =>
    obtain ⟨pk, pv⟩ := p
    by_cases hpk : pk = k
    · subst hpk
      by_cases hk : pk = k' <;> simp [dictInsert, dictLookup, hk]
    · by_cases hk : pk = k'
      · subst hk
        have : ¬ k = pk := fun h => hpk h.symm
        simp [dictInsert, dictLookup, hpk, this]
      · simp [dictInsert, dictLookup, hpk, hk, ih]

theorem dictLookup_append (a b : List (Str × Str)) (k : Str) :
    dictLookup (a ++ b) k = orLookup (dictLookup a k) (dictLookup b k) := by
  induction a with
  | nil => simp [dictLookup, orLookup]
  | cons p t ih =>
    obtain ⟨pk, pv⟩ := p
    by_cases hk : pk = k <;> simp [dictLookup, hk, orLookup, ih]

theorem load_fold_lookup (header : List Str) (rows : List (List Str))
    (pd : List (Str × Str)) (k : Str) :
    dictLookup (rows.foldl (loadRow header) pd) k
      = orLookup (lastLookup (usableRows header rows) k) (dictLookup pd k) := by
  induction rows generalizing pd with
  | nil => simp [usableRows, lastLookup, dictLookup, orLookup]
  | cons row rest ih =>
    rw [List.foldl_cons]
    by_cases hg : stripChars (rowGet header row PROJECT_NAME_COL) ≠ []
        ∧ stripChars (rowGet header row EMAIL_COL) ≠ []
    · have hload : loadRow header pd row
          = dictInsert pd (stripChars (rowGet header row PROJECT_NAME_COL))
              (stripChars (rowGet header row EMAIL_COL)) := by
        simp [loadRow, hg]
      have husable : usableRows header (row :: rest)
          = (stripChars (rowGet header row PROJECT_NAME_COL),
             stripChars (rowGet header row EMAIL_COL)) :: usableRows header rest := by
        simp [usableRows, hg]
      rw [hload, ih, husable]
      simp only [lastLookup, List.reverse_cons, dictLookup_append]
      cases hcase : dictLookup (usableRows header rest).reverse k
      · simp only [orLookup, dictLookup, dictLookup_dictInsert]
        by_cases hnk : stripChars (rowGet header row PROJECT_NAME_COL) = k <;>
          simp [hnk, orLookup]
      · simp [orLookup]
    · have hload : loadRow header pd row = pd := by
        unfold loadRow
        rw [if_neg hg]
      have husable : usableRows header (row :: rest) = usableRows header rest := by
        simp only [usableRows, List.filterMap_cons]
        rw [if_neg hg]
      rw [hload, ih, husable]

/-- Claim C4: on a lookup file whose header has both required columns, with
well-formed rows and at least one row whose trimmed name and contact are both
nonempty, the loader succeeds and the returned mapping associates to every
key exactly what the last usable row carrying that key gives: the mapping
holds exactly the trimmed nonempty pairs, later duplicates overriding
earlier ones. -/
theorem c4_load_returns_exact_mapping (header : List Str) (rows : List (List Str))
    (hp : PROJECT_NAME_COL ∈ header) (he : EMAIL_COL ∈ header)
    (hwf : ∀ row ∈ rows, row.length = header.length)
    (hx : ∃ row ∈ rows, stripChars (rowGet header row PROJECT_NAME_COL) ≠ []
            ∧ stripChars (rowGet header row EMAIL_COL) ≠ []) :
    load_project_data header rows ≠ none
    ∧ ∀ k, dictLookup ((load_project_data header rows).getD []) k
        = lastLookup (usableRows header rows) k := by
  have hcol : PROJECT_NAME_COL ∈ header ∧ EMAIL_COL ∈ header := ⟨hp, he⟩
  constructor
  · simp [load_project_data, hcol]
  · intro k
    rw [show load_project_data header rows = some (rows.foldl (loadRow header) []) by
      simp [load_project_data, hcol]]
    rw [Option.getD_some, load_fold_lookup]
    rw [show dictLookup [] k = none from rfl, orLookup_none_right]

/-- Header and rows of a concrete lookup file with a duplicate project name. -/
def c4header : List Str := [PROJECT_NAME_COL, EMAIL_COL]

/-- Rows: a valid pair, a blank name, a duplicate of the first name with a
new contact, and a blank contact. -/
def c4rows : List (List Str) :=
  [linesOf ["p1", "e1@teco.com.ar"], linesOf [" ", "zz"],
   linesOf [" p1 ", "e2@teco.com.ar"], linesOf ["p2", "  "]]

theorem c4_load_returns_exact_mapping_witness :
    dictLookup ((load_project_data c4header c4rows).getD []) "p1".toList
      = lastLookup (usableRows c4header c4rows) "p1".toList :=
  (c4_load_returns_exact_mapping c4header c4rows (by decide) (by decide)
    (by decide) (by decide)).2 "p1".toList

/-- Claim C7: a header missing a required column makes the loader fail with the
schema error and return no mapping, and the walk phase is never entered: no
configuration file is read or mutated. -/
theorem c7_schema_error_aborts (header : List Str) (rows : List (List Str))
    (files : List (List Str))
    (h : PROJECT_NAME_COL ∉ header ∨ EMAIL_COL ∉ header) :
    load_project_data header rows = none
    ∧ run_program header rows files = none := by
  have hcol : ¬ (PROJECT_NAME_COL ∈ header ∧ EMAIL_COL ∈ header) := by tauto
  refine ⟨by simp [load_project_data, hcol], ?_⟩
  rw [run_program, show load_project_data header rows = none by
    simp [load_project_data, hcol]]

theorem c7_schema_error_aborts_witness :
    load_project_data (linesOf ["PROJECT_NAME", "OWNER"])
        [linesOf ["p1", "e1"]] = none
    ∧ run_program (linesOf ["PROJECT_NAME", "OWNER"]) [linesOf ["p1", "e1"]]
        [linesOf ["name = \"p1\"\n"]] = none :=
  c7_schema_error_aborts _ _ _ (by decide)

theorem foldl_loadRow_skip (header : List Str) (rows : List (List Str))
    (pd : List (Str × Str))
    (hz : ∀ row ∈ rows, stripChars (rowGet header row PROJECT_NAME_COL) = []
            ∨ stripChars (rowGet header row EMAIL_COL) = []) :
    rows.foldl (loadRow header) pd = pd := by
  induction rows generalizing pd with
  | nil => rfl
  | cons row rest ih =>
    rw [List.foldl_cons]
    have hrow := hz row (by simp)
    have hskip : loadRow header pd row = pd := by
      unfold loadRow
      rcases hrow with h | h <;> simp [h]
    rw [hskip]
    exact ih _ (fun r hr => hz r (by simp [hr]))

/-- Claim C10: with a valid header but no usable row the loader succeeds with an
empty mapping, which the caller treats as falsy: the walk phase is skipped
exactly as if loading had failed, no directory is traversed and no file is
touched. -/
theorem c10_empty_mapping_skips_walk (header : List Str) (rows : List (List Str))
    (files : List (List Str))
    (hp : PROJECT_NAME_COL ∈ header) (he : EMAIL_COL ∈ header)
    (hwf : ∀ row ∈ rows, row.length = header.length)
    (hz : ∀ row ∈ rows, stripChars (rowGet header row PROJECT_NAME_COL) = []
            ∨ stripChars (rowGet header row EMAIL_COL) = []) :
    load_project_data header rows = some []
    ∧ run_program header rows files = none := by
  have hload : load_project_data header rows = some [] := by
    rw [show load_project_data header rows = some (rows.foldl (loadRow header) []) by
      simp [load_project_data, hp, he]]
    rw [foldl_loadRow_skip header rows [] hz]
  refine ⟨hload, ?_⟩
  rw [run_program, hload]
  rfl

theorem c10_empty_mapping_skips_walk_witness :
    load_project_data c4header [linesOf [" ", "x@teco.com.ar"]] = some []
    ∧ run_program c4header [linesOf [" ", "x@teco.com.ar"]]
        [linesOf ["name = \"p1\"\n"]] = none :=
  c10_empty_mapping_skips_walk _ _ _ (by decide) (by decide) (by decide) (by decide)

theorem main_walk_foldl (pd : List (Str × Str)) (files : List (List Str))
    (acc : Nat × Nat × List (List Str)) :
    files.foldl (walkStep pd) acc
      = (acc.1 + files.length, acc.2.1 + files.countP (countedModified pd),
         acc.2.2 ++ files.map (walkFile pd)) := by
  induction files generalizing acc with
  | nil => simp
  | cons f rest ih =>
    rw [List.foldl_cons, ih]
    rcases hs : searchName f.flatten with _ | name
    · simp [walkStep, walkFile, countedModified, hs, List.countP_cons]
      omega
    · rcases hd : dictLookup pd name with _ | email
      · simp [walkStep, walkFile, countedModified, hs, hd, List.countP_cons]
        omega
      · rcases hu : update_terragrunt_file f email with _ | nl
        · simp [walkStep, walkFile, countedModified, hs, hd, hu, List.countP_cons]
          omega
        · simp [walkStep, walkFile, countedModified, hs, hd, hu, List.countP_cons]
          omega

/-- Claim C1 amended: a configuration file is mutated only when its extracted
project name is a key of the mapping and the labels block is found, and is
otherwise left untouched; but the summary's modified count equals the number
of processed files whose extracted name is a key of the mapping, whether or
not their labels block was found and edited. -/
theorem c1_amended_modified_counts_matches (pd : List (Str × Str))
    (files : List (List Str)) :
    main_walk pd files
      = (files.length, files.countP (countedModified pd), files.map (walkFile pd))
    ∧ ∀ f : List Str, walkFile pd f ≠ f →
        (extractedEmail pd f).isSome = true
        ∧ (update_terragrunt_file f ((extractedEmail pd f).getD [])).isSome = true
        ∧ walkFile pd f
            = (update_terragrunt_file f ((extractedEmail pd f).getD [])).getD f := by
  constructor
  · have h := main_walk_foldl pd files (0, 0, [])
    simpa [main_walk] using h
  · intro f hf
    unfold walkFile at hf ⊢
    unfold extractedEmail
    rcases hs : searchName f.flatten with _ | name
    · simp [hs] at hf
    · rcases hd : dictLookup pd name with _ | email
      · simp [hs, hd] at hf
      · rcases hu : update_terragrunt_file f email with _ | nl
        · simp [hs, hd, hu] at hf
        · simp [hs, hd, hu, Option.bind]

/-- The mapping of the C1 scenario: one project with a contact. -/
def c1pd : List (Str × Str) := [("p1".toList, "u@x".toList)]

/-- A matching file whose name is in the mapping but which has no labels
block. -/
def c1file : List Str := linesOf ["name = \"p1\"\n"]

/-- Claim C1 counterexample: the walk over one matching file whose name is in the
mapping but whose labels block is missing reports 1 processed and 1 modified
although the editor reported not-found and the file was left untouched, so
the modified count does not equal the number of files actually edited. -/
theorem c1_counterexample :
    main_walk c1pd [c1file] = (1, 1, [c1file])
    ∧ update_terragrunt_file c1file ("u@x".toList) = none :=
  ⟨by decide, by decide⟩

/-- A matching file whose name is in the mapping and which has a labels
block. -/
def c1wfile : List Str :=
  linesOf ["name = \"p1\"\n", "labels = \x7b\n", "  env = \"prod\"\n", "\x7d\n"]

theorem c1_amended_modified_counts_matches_witness :
    (extractedEmail c1pd c1wfile).isSome = true
    ∧ (update_terragrunt_file c1wfile ((extractedEmail c1pd c1wfile).getD [])).isSome
        = true
    ∧ walkFile c1pd c1wfile
        = (update_terragrunt_file c1wfile
            ((extractedEmail c1pd c1wfile).getD [])).getD c1wfile :=
  (c1_amended_modified_counts_matches c1pd []).2 c1wfile (by decide)
